import Mathlib

/-!
# Verification of the `trackobjs` tracking core

A shallow embedding of the state-estimation and association-cost code of the
`trackobjs` repository (`trackers/utils/kalman_filter.py` and
`trackers/utils/matching.py`), over an arbitrary linear ordered field `K`
(exact arithmetic; the Python source computes with IEEE floats).

Conventions used throughout:
* numpy vectors become functions `Fin n → K`; numpy matrices become
  `Matrix (Fin m) (Fin n) K`; a batch of `N` states becomes a function
  `Fin N → _`.
* `numpy.dot(v, M)` (vector–matrix) is `Matrix.vecMul v M`; `numpy.dot(M, v)`
  is `Matrix.mulVec M v`; 2-d `numpy.dot` / `multi_dot` is matrix
  multiplication `*`.
* `scipy.linalg.cho_factor` / `cho_solve` (solving `S · X = B` through the
  Cholesky factor of `S`) is modelled by multiplication with the exact inverse
  `matInv S`: in exact arithmetic `cho_solve(S, B) = S⁻¹ * B` whenever the
  factorization exists (`S` positive definite).  `matInv` is total and returns
  the zero matrix on singular input, where the SciPy call would raise.
* Python exceptions that a claim is about are modelled with `Except`.
-/

set_option maxHeartbeats 1000000

namespace Trackobjs

open scoped Matrix

variable {K : Type} [LinearOrderedField K]

/-- Exact matrix inverse, written with an executable `if` so that it can be
evaluated on concrete rational matrices.  Over a field it agrees with
Mathlib's nonsingular inverse `A⁻¹` (both are `0` on singular input). -/
def matInv {n : Type} [Fintype n] [DecidableEq n] [DecidableEq K]
    (A : Matrix n n K) : Matrix n n K :=
  if A.det = 0 then 0 else A.det⁻¹ • A.adjugate

theorem matInv_eq_inv {n : Type} [Fintype n] [DecidableEq n] [DecidableEq K]
    (A : Matrix n n K) : matInv A = A⁻¹ := by
  rw [Matrix.inv_def, Ring.inverse_eq_inv]
  unfold matInv
  split_ifs with h
  · simp [h]
  · rfl

/-- If `A * B = 1` then `matInv A = B`; lets concrete inverses be checked by a
plain matrix multiplication. -/
theorem matInv_eq_of_mul_eq_one {n : Type} [Fintype n] [DecidableEq n]
    [DecidableEq K] {A B : Matrix n n K} (h : A * B = 1) : matInv A = B := by
  rw [matInv_eq_inv, Matrix.inv_eq_right_inv h]

namespace KalmanFilterXYAH

/-- `self._motion_mat`: `numpy.eye(8)` with `motion_mat[i, 4+i] = dt = 1`
for `i < 4` (constant-velocity transition). -/
def motion_mat : Matrix (Fin 8) (Fin 8) K :=
  Matrix.of fun i j =>
    if (i : ℕ) = (j : ℕ) then 1 else if (j : ℕ) = (i : ℕ) + 4 then 1 else 0

/-- `self._update_mat`: `numpy.eye(4, 8)` (observation of the first four
state components). -/
def update_mat : Matrix (Fin 4) (Fin 8) K :=
  Matrix.of fun i j => if (j : ℕ) = (i : ℕ) then 1 else 0

/-- `self._std_weight_position = 1.0 / 20`. -/
def std_weight_position : K := 1 / 20

/-- `self._std_weight_velocity = 1.0 / 160`. -/
def std_weight_velocity : K := 1 / 160

/-- `KalmanFilterXYAH.initiate`: mean is the measurement with zero-filled
velocities, covariance is `diag(square(std))` for the source's `std` list. -/
def initiate (measurement : Fin 4 → K) :
    (Fin 8 → K) × Matrix (Fin 8) (Fin 8) K :=
  let mean : Fin 8 → K :=
    ![measurement 0, measurement 1, measurement 2, measurement 3, 0, 0, 0, 0]
  let std : Fin 8 → K :=
    ![2 * std_weight_position * measurement 3,
      2 * std_weight_position * measurement 3,
      1 / 100,
      2 * std_weight_position * measurement 3,
      10 * std_weight_velocity * measurement 3,
      10 * std_weight_velocity * measurement 3,
      1 / 100000,
      10 * std_weight_velocity * measurement 3]
  (mean, Matrix.diagonal fun i => std i ^ 2)

/-- The process-noise matrix assembled by `predict`
(`numpy.diag(numpy.square(numpy.r_[std_pos, std_vel]))`). -/
def motion_cov (mean : Fin 8 → K) : Matrix (Fin 8) (Fin 8) K :=
  let std : Fin 8 → K :=
    ![std_weight_position * mean 3,
      std_weight_position * mean 3,
      1 / 100,
      std_weight_position * mean 3,
      std_weight_velocity * mean 3,
      std_weight_velocity * mean 3,
      1 / 100000,
      std_weight_velocity * mean 3]
  Matrix.diagonal fun i => std i ^ 2

/-- `KalmanFilterXYAH.predict`:
`mean' = numpy.dot(mean, F.T)`,
`cov' = multi_dot((F, cov, F.T)) + motion_cov`. -/
def predict (mean : Fin 8 → K) (covariance : Matrix (Fin 8) (Fin 8) K) :
    (Fin 8 → K) × Matrix (Fin 8) (Fin 8) K :=
  (Matrix.vecMul mean motion_matᵀ,
   motion_mat * covariance * motion_matᵀ + motion_cov mean)

/-- `KalmanFilterXYAH.project`:
`mean' = numpy.dot(H, mean)`,
`cov' = multi_dot((H, cov, H.T)) + innovation_cov`. -/
def project (mean : Fin 8 → K) (covariance : Matrix (Fin 8) (Fin 8) K) :
    (Fin 4 → K) × Matrix (Fin 4) (Fin 4) K :=
  let std : Fin 4 → K :=
    ![std_weight_position * mean 3,
      std_weight_position * mean 3,
      1 / 10,
      std_weight_position * mean 3]
  let innovation_cov := Matrix.diagonal fun i => std i ^ 2
  (Matrix.mulVec update_mat mean,
   update_mat * covariance * update_matᵀ + innovation_cov)

/-- `KalmanFilterXYAH.multi_predict`, index-level embedding of the
vectorized numpy code.  `std_stack` is the `8 × N` array
`numpy.r_[std_pos, std_vel]`, `sqr` its elementwise square transposed to
`N × 8`, `dotFC i n j` the 3-d `numpy.dot(F, covariance)` and `left` its
`(1, 0, 2)` transpose; the batched covariance is `numpy.dot(left, F.T)`
plus the per-track diagonal `motion_cov`. -/
def multi_predict {N : ℕ} (mean : Fin N → Fin 8 → K)
    (covariance : Fin N → Matrix (Fin 8) (Fin 8) K) :
    (Fin N → Fin 8 → K) × (Fin N → Matrix (Fin 8) (Fin 8) K) :=
  let std_stack : Fin 8 → Fin N → K :=
    ![fun n => std_weight_position * mean n 3,
      fun n => std_weight_position * mean n 3,
      fun _ => 1 / 100,
      fun n => std_weight_position * mean n 3,
      fun n => std_weight_velocity * mean n 3,
      fun n => std_weight_velocity * mean n 3,
      fun _ => 1 / 100000,
      fun n => std_weight_velocity * mean n 3]
  let sqr : Fin N → Fin 8 → K := fun n i => std_stack i n ^ 2
  let motionCov : Fin N → Matrix (Fin 8) (Fin 8) K :=
    fun n => Matrix.diagonal (sqr n)
  let mean' : Fin N → Fin 8 → K := fun n => Matrix.vecMul (mean n) motion_matᵀ
  let dotFC : Fin 8 → Fin N → Fin 8 → K :=
    fun i n j => ∑ k, motion_mat i k * covariance n k j
  let left : Fin N → Matrix (Fin 8) (Fin 8) K :=
    fun n => Matrix.of fun i j => dotFC i n j
  let cov' : Fin N → Matrix (Fin 8) (Fin 8) K :=
    fun n =>
      Matrix.of (fun i j => ∑ k, left n i k * motion_matᵀ k j) + motionCov n
  (mean', cov')

/-- `KalmanFilterXYAH.update`.  The Kalman gain is the source's
`cho_solve(cho_factor(projected_cov), (cov @ H.T).T).T`, with the
Cholesky-based solve rendered in exact arithmetic as multiplication by
`matInv projected_cov` (SciPy raises where the factorization fails; the
model is total there and C2/C3 below add the hypotheses that make the
factorization exist). -/
def update [DecidableEq K] (mean : Fin 8 → K)
    (covariance : Matrix (Fin 8) (Fin 8) K) (measurement : Fin 4 → K) :
    (Fin 8 → K) × Matrix (Fin 8) (Fin 8) K :=
  let pm := project mean covariance
  let projected_mean := pm.1
  let projected_cov := pm.2
  let kalman_gain : Matrix (Fin 8) (Fin 4) K :=
    (matInv projected_cov * (covariance * update_matᵀ)ᵀ)ᵀ
  let innovation : Fin 4 → K := fun i => measurement i - projected_mean i
  let new_mean : Fin 8 → K :=
    fun i => mean i + Matrix.vecMul innovation kalman_gainᵀ i
  let new_covariance :=
    covariance - kalman_gain * projected_cov * kalman_gainᵀ
  (new_mean, new_covariance)

/-- Shared distance kernel of `gating_distance` after the dimension
selection: `d = measurements - mean`, then the metric branch.  The `"maha"`
branch is the source's triangular solve `z` against the Cholesky factor `L`
of `cov` followed by `sum(z * z)`; in exact arithmetic
`zᵀz = dᵀ(L Lᵀ)⁻¹d = dᵀ cov⁻¹ d`, rendered with `matInv`. -/
def gating_core {n : Type} [Fintype n] [DecidableEq n] [DecidableEq K]
    (mean : n → K) (cov : Matrix n n K) (measurements : List (n → K))
    (metric : String) : Except String (List K) :=
  let d : List (n → K) := measurements.map fun m i => m i - mean i
  if metric = "gaussian" then
    Except.ok (d.map fun v => ∑ i, v i * v i)
  else if metric = "maha" then
    Except.ok (d.map fun v => Matrix.dotProduct v (Matrix.mulVec (matInv cov) v))
  else
    Except.error "Invalid distance metric"

/-- `KalmanFilterXYAH.gating_distance`: projects the state, optionally
restricts mean/covariance/measurements to the two center-position
dimensions, then dispatches on the metric string; an unknown metric
raises `ValueError("Invalid distance metric")`. -/
def gating_distance [DecidableEq K] (mean : Fin 8 → K)
    (covariance : Matrix (Fin 8) (Fin 8) K)
    (measurements : List (Fin 4 → K)) (only_position : Bool)
    (metric : String) : Except String (List K) :=
  let pm := project mean covariance
  if only_position then
    gating_core (fun i : Fin 2 => pm.1 (Fin.castLE (by omega) i))
      (pm.2.submatrix (Fin.castLE (by omega)) (Fin.castLE (by omega)))
      (measurements.map fun m (i : Fin 2) => m (Fin.castLE (by omega) i))
      metric
  else
    gating_core pm.1 pm.2 measurements metric

end KalmanFilterXYAH

namespace KalmanFilterXYWH

open KalmanFilterXYAH in
/-- `KalmanFilterXYWH.initiate`: as the XYAH variant but the noise scales
use width (`measurement[2]`) and height (`measurement[3]`), with no
dimensionless-constant slots. -/
def initiate (measurement : Fin 4 → K) :
    (Fin 8 → K) × Matrix (Fin 8) (Fin 8) K :=
  let mean : Fin 8 → K :=
    ![measurement 0, measurement 1, measurement 2, measurement 3, 0, 0, 0, 0]
  let std : Fin 8 → K :=
    ![2 * std_weight_position * measurement 2,
      2 * std_weight_position * measurement 3,
      2 * std_weight_position * measurement 2,
      2 * std_weight_position * measurement 3,
      10 * std_weight_velocity * measurement 2,
      10 * std_weight_velocity * measurement 3,
      10 * std_weight_velocity * measurement 2,
      10 * std_weight_velocity * measurement 3]
  (mean, Matrix.diagonal fun i => std i ^ 2)

end KalmanFilterXYWH

namespace Matching

/-- A track-like object as consumed by `iou_distance`: exactly the attributes
the source reads (`angle`, `xywha`, `xyxy`). -/
structure Track (K : Type) where
  angle : Option K
  xywha : Fin 5 → K
  xyxy : Fin 4 → K

/-- An element of an `iou_distance` input list: either a raw numpy box array
(`Sum.inl`, arbitrary length) or a track object (`Sum.inr`). -/
abbrev Entry (K : Type) := List K ⊕ Track K

/-- The Python guard `atracks and isinstance(atracks[0], numpy.ndarray)`. -/
def firstIsRaw : List (Entry K) → Bool
  | [] => false
  | Sum.inl _ :: _ => true
  | Sum.inr _ :: _ => false

/-- The list-comprehension body
`track.xywha if track.angle is not None else track.xyxy`, kept as a `List`
so that its length (5 vs 4) drives the later representation branch. -/
def trackBox (t : Track K) : List K :=
  if t.angle.isSome then List.ofFn t.xywha else List.ofFn t.xyxy

/-- One element under `numpy.ascontiguousarray`: a raw array is taken as is;
on a track object (possible only for mixed lists, where the source would not
produce a numeric array) the model returns the junk value `[]`. -/
def entryArr : Entry K → List K
  | Sum.inl b => b
  | Sum.inr _ => []

/-- One element under the track-conversion comprehension; attribute access on
a raw array (possible only for mixed lists) raises `AttributeError` in the
source and is the junk value `[]` here. -/
def entryConv : Entry K → List K
  | Sum.inl _ => []
  | Sum.inr t => trackBox t

/-- The `atlbrs`/`btlbrs` selection at the top of `iou_distance`: if the
first element of either list is a raw array both lists are used unchanged,
otherwise every track is converted through `trackBox`. -/
def selectedReps (atracks btracks : List (Entry K)) :
    List (Entry K) × List (Entry K) :=
  if firstIsRaw atracks || firstIsRaw btracks then (atracks, btracks)
  else
    (atracks.map fun t => Sum.inl (entryConv t),
     btracks.map fun t => Sum.inl (entryConv t))

/-- Axis-aligned box accessors for a `[x1, y1, x2, y2]` array. -/
def boxX1 (b : List K) : K := b.getD 0 0

def boxY1 (b : List K) : K := b.getD 1 0

def boxX2 (b : List K) : K := b.getD 2 0

def boxY2 (b : List K) : K := b.getD 3 0

/-- Intersection area of two axis-aligned boxes. -/
def interArea (b1 b2 : List K) : K :=
  max 0 (min (boxX2 b1) (boxX2 b2) - max (boxX1 b1) (boxX1 b2)) *
    max 0 (min (boxY2 b1) (boxY2 b2) - max (boxY1 b1) (boxY1 b2))

/-- Area of an axis-aligned box. -/
def boxArea (b : List K) : K :=
  (boxX2 b - boxX1 b) * (boxY2 b - boxY1 b)

/-- Modelled from the spec: `bbox_ioa(..., iou=True)` is referenced by
`matching.py` but defined nowhere in this repository's sources (it is used
without an import); per the spec, "Axis-aligned boxes use exact
intersection-over-union", i.e. intersection area over union area. -/
def bbox_ioa (b1 b2 : List K) : K :=
  interArea b1 b2 / (boxArea b1 + boxArea b2 - interArea b1 b2)

/-- Modelled from the spec: `batch_probiou` (rotated-box probabilistic IoU)
is referenced by `matching.py` but defined nowhere in this repository's
sources, and the spec describes it only as "a closed-form overlap measure"
without a formula.  No claim depends on its values — only on when this
branch is selected — so it is modelled as an unspecified constant score. -/
def batch_probiou (_b1 _b2 : List K) : K := 0

/-- `iou_distance` as an entry function: index `(i, j)` of the returned
cost matrix (`1 - ious`); `ious` is the zero array when either selected list
is empty, the `batch_probiou` pairing when both lead elements have length 5,
and the `bbox_ioa(iou=True)` pairing otherwise. -/
def iou_distance (atracks btracks : List (Entry K)) : ℕ → ℕ → K :=
  let reps := selectedReps atracks btracks
  let atlbrs := reps.1.map entryArr
  let btlbrs := reps.2.map entryArr
  fun i j =>
    let iou_ij : K :=
      if atlbrs.length ≠ 0 ∧ btlbrs.length ≠ 0 then
        if (atlbrs.headD []).length = 5 ∧ (btlbrs.headD []).length = 5 then
          batch_probiou (atlbrs.getD i []) (btlbrs.getD j [])
        else bbox_ioa (atlbrs.getD i []) (btlbrs.getD j [])
      else 0
    1 - iou_ij

/-- A detection as consumed by `fuse_score`: only the `score` attribute. -/
structure Detection (K : Type) where
  score : K

/-- `fuse_score`: returns the input unchanged on a zero-size cost matrix,
otherwise `1 - (1 - cost) * score` with the scores broadcast across rows. -/
def fuse_score {n m : ℕ} (cost_matrix : Matrix (Fin n) (Fin m) K)
    (detections : Fin m → Detection K) : Matrix (Fin n) (Fin m) K :=
  if n * m = 0 then cost_matrix
  else
    let iou_sim := Matrix.of fun (i : Fin n) (j : Fin m) => 1 - cost_matrix i j
    let det_scores : Fin m → K := fun j => (detections j).score
    let fuse_sim := Matrix.of fun (i : Fin n) (j : Fin m) => iou_sim i j * det_scores j
    Matrix.of fun (i : Fin n) (j : Fin m) => 1 - fuse_sim i j

end Matching

/-! ## Theorems -/

namespace KalmanFilterXYAH

/-- Batched and single-state prediction agree: the vectorized index
calculation of `multi_predict` collapses, track by track, to `predict`. -/
theorem multi_predict_eq_predict {N : ℕ} (mean : Fin N → Fin 8 → K)
    (covariance : Fin N → Matrix (Fin 8) (Fin 8) K) (k : Fin N) :
    (multi_predict mean covariance).1 k = (predict (mean k) (covariance k)).1 ∧
    (multi_predict mean covariance).2 k = (predict (mean k) (covariance k)).2 := by
  refine ⟨rfl, ?_⟩
  ext i j
  simp only [multi_predict, predict, motion_cov, Matrix.add_apply, Matrix.of_apply,
    Matrix.mul_apply, Matrix.diagonal_apply]
  congr 1
  by_cases hij : i = j
  · subst hij
    simp only [if_pos rfl]
    fin_cases i <;> norm_num
  · simp [hij]

/-- Left-multiplying by the observation matrix selects the first four rows. -/
theorem update_mat_mul_apply {m : Type} [Fintype m]
    (M : Matrix (Fin 8) m K) (i : Fin 4) (j : m) :
    ((update_mat : Matrix (Fin 4) (Fin 8) K) * M) i j =
      M ⟨(i : ℕ), i.isLt.trans_le (by norm_num)⟩ j := by
  rw [Matrix.mul_apply,
    Finset.sum_eq_single (⟨(i : ℕ), i.isLt.trans_le (by norm_num)⟩ : Fin 8)]
  · simp [update_mat]
  · intro b _ hb
    have hbv : ¬((b : ℕ) = (i : ℕ)) := fun h => hb (Fin.ext h)
    simp [update_mat, hbv]
  · exact fun h => absurd (Finset.mem_univ _) h

/-- Right-multiplying by the transposed observation matrix selects the first
four columns. -/
theorem mul_update_mat_transpose_apply {m : Type} [Fintype m]
    (M : Matrix m (Fin 8) K) (i : m) (j : Fin 4) :
    (M * (update_mat : Matrix (Fin 4) (Fin 8) K)ᵀ) i j =
      M i ⟨(j : ℕ), j.isLt.trans_le (by norm_num)⟩ := by
  rw [Matrix.mul_apply,
    Finset.sum_eq_single (⟨(j : ℕ), j.isLt.trans_le (by norm_num)⟩ : Fin 8)]
  · simp [update_mat]
  · intro b _ hb
    have hbv : ¬((b : ℕ) = (j : ℕ)) := fun h => hb (Fin.ext h)
    simp [update_mat, hbv]
  · exact fun h => absurd (Finset.mem_univ _) h

/-- The projected mean is the first four components of the state mean. -/
theorem project_mean_apply (mean : Fin 8 → K)
    (c : Matrix (Fin 8) (Fin 8) K) (i : Fin 4) :
    (project mean c).1 i = mean ⟨(i : ℕ), i.isLt.trans_le (by norm_num)⟩ := by
  show Matrix.mulVec update_mat mean i = _
  simp only [Matrix.mulVec, Matrix.dotProduct]
  rw [Finset.sum_eq_single (⟨(i : ℕ), i.isLt.trans_le (by norm_num)⟩ : Fin 8)]
  · simp [update_mat]
  · intro b _ hb
    have hbv : ¬((b : ℕ) = (i : ℕ)) := fun h => hb (Fin.ext h)
    simp [update_mat, hbv]
  · exact fun h => absurd (Finset.mem_univ _) h

/-- The projected covariance, spelled with its two summands. -/
theorem project_cov_eq (mean : Fin 8 → K) (c : Matrix (Fin 8) (Fin 8) K) :
    (project mean c).2 = update_mat * c * update_matᵀ +
      Matrix.diagonal (fun i =>
        (![std_weight_position * mean 3, std_weight_position * mean 3,
           1 / 10, std_weight_position * mean 3] : Fin 4 → K) i ^ 2) := rfl

/-- A diagonal matrix of squares is positive semidefinite. -/
theorem posSemidef_diagonal_sq {n : Type} [Fintype n] [DecidableEq n]
    (d : n → ℝ) : (Matrix.diagonal fun i => d i ^ 2).PosSemidef :=
  Matrix.PosSemidef.diagonal fun i => sq_nonneg (d i)

/-- Real version of `PosSemidef.mul_mul_conjTranspose_same`. -/
theorem psd_mul_mul_transpose {n m : Type} [Fintype n] [Fintype m]
    {A : Matrix n n ℝ} (hA : A.PosSemidef) (B : Matrix m n ℝ) :
    (B * A * Bᵀ).PosSemidef := by
  have h := hA.mul_mul_conjTranspose_same B
  rwa [Matrix.conjTranspose_eq_transpose_of_trivial] at h

/-- A real positive semidefinite matrix is symmetric. -/
theorem psd_transpose_eq {n : Type} [Fintype n] {A : Matrix n n ℝ}
    (hA : A.PosSemidef) : Aᵀ = A := by
  have h := hA.1
  rwa [Matrix.IsHermitian, Matrix.conjTranspose_eq_transpose_of_trivial] at h

/-- A positive semidefinite real matrix with nonzero determinant is positive
definite. -/
theorem posDef_of_posSemidef_det_ne_zero {n : Type} [Fintype n] [DecidableEq n]
    {A : Matrix n n ℝ} (hA : A.PosSemidef) (hdet : A.det ≠ 0) : A.PosDef := by
  refine ⟨hA.1, fun x hx => ?_⟩
  rcases lt_or_eq_of_le (hA.2 x) with h | h
  · exact h
  · exfalso
    have h0 : A *ᵥ x = 0 := (hA.dotProduct_mulVec_zero_iff x).mp h.symm
    have hinj : Function.Injective A.mulVec :=
      Matrix.mulVec_injective_iff_isUnit.mpr
        ((Matrix.isUnit_iff_isUnit_det A).mpr (isUnit_iff_ne_zero.mpr hdet))
    exact hx (hinj (by simp [h0]))

/-- A block-diagonal matrix with positive semidefinite blocks is positive
semidefinite. -/
theorem posSemidef_fromBlocks_diag {m n : Type} [Fintype m] [Fintype n]
    {A : Matrix m m ℝ} {D : Matrix n n ℝ}
    (hA : A.PosSemidef) (hD : D.PosSemidef) :
    (Matrix.fromBlocks A 0 0 D).PosSemidef := by
  constructor
  · show (Matrix.fromBlocks A 0 0 D)ᴴ = Matrix.fromBlocks A 0 0 D
    rw [Matrix.fromBlocks_conjTranspose, hA.1, hD.1]
    simp
  · intro x
    rw [← Sum.elim_comp_inl_inr x]
    have hform : star (Sum.elim (x ∘ Sum.inl) (x ∘ Sum.inr)) ⬝ᵥ
        (Matrix.fromBlocks A 0 0 D *ᵥ Sum.elim (x ∘ Sum.inl) (x ∘ Sum.inr)) =
        star (x ∘ Sum.inl) ⬝ᵥ (A *ᵥ (x ∘ Sum.inl)) +
          star (x ∘ Sum.inr) ⬝ᵥ (D *ᵥ (x ∘ Sum.inr)) := by
      simp [Matrix.fromBlocks_mulVec, Function.star_sum_elim, Matrix.dotProduct,
        Fintype.sum_sum_type]
    rw [hform]
    exact add_nonneg (hA.2 _) (hD.2 _)

/-- The innovation-noise diagonal added by `project`. -/
theorem psd_project_R (mean : Fin 8 → ℝ) :
    (Matrix.diagonal fun i =>
      (![std_weight_position * mean 3, std_weight_position * mean 3,
         1 / 10, std_weight_position * mean 3] : Fin 4 → ℝ) i ^ 2).PosSemidef :=
  posSemidef_diagonal_sq _

/-- The projected covariance of a positive semidefinite state covariance is
positive semidefinite. -/
theorem project_cov_psd (mean : Fin 8 → ℝ) {P : Matrix (Fin 8) (Fin 8) ℝ}
    (hP : P.PosSemidef) : (project mean P).2.PosSemidef := by
  rw [project_cov_eq]
  exact (psd_mul_mul_transpose hP update_mat).add (psd_project_R mean)

/-- The corrected covariance of `update` is positive semidefinite whenever
the incoming covariance is. -/
theorem update_cov_psd (mean : Fin 8 → ℝ) {P : Matrix (Fin 8) (Fin 8) ℝ}
    (hP : P.PosSemidef) (z : Fin 4 → ℝ) :
    (update mean P z).2.PosSemidef := by
  have hPt : Pᵀ = P := psd_transpose_eq hP
  have hSpsd : (project mean P).2.PosSemidef := project_cov_psd mean hP
  have hSt : (project mean P).2ᵀ = (project mean P).2 := psd_transpose_eq hSpsd
  have hupd : (update mean P z).2 =
      P - ((matInv (project mean P).2 * (P * update_matᵀ)ᵀ)ᵀ :
            Matrix (Fin 8) (Fin 4) ℝ) * (project mean P).2 *
        ((matInv (project mean P).2 * (P * update_matᵀ)ᵀ)ᵀ :
            Matrix (Fin 8) (Fin 4) ℝ)ᵀ := rfl
  by_cases hdet : (project mean P).2.det = 0
  · rw [hupd, show matInv (project mean P).2 = 0 by rw [matInv, if_pos hdet]]
    simpa using hP
  · have hU : IsUnit (project mean P).2.det := isUnit_iff_ne_zero.mpr hdet
    have hSpd : (project mean P).2.PosDef :=
      posDef_of_posSemidef_det_ne_zero hSpsd hdet
    haveI : Invertible (project mean P).2 :=
      (project mean P).2.invertibleOfIsUnitDet hU
    have hBH : (P * (update_mat (K := ℝ))ᵀ)ᴴ = update_mat * P := by
      rw [Matrix.conjTranspose_eq_transpose_of_trivial, Matrix.transpose_mul,
        Matrix.transpose_transpose, hPt]
    have hblocks : (Matrix.fromBlocks P (P * (update_mat (K := ℝ))ᵀ)
        ((update_mat (K := ℝ)) * P) (project mean P).2).PosSemidef := by
      have hL : Matrix.fromBlocks P (P * (update_mat (K := ℝ))ᵀ) ((update_mat (K := ℝ)) * P)
            (project mean P).2 =
          Matrix.fromBlocks (1 : Matrix (Fin 8) (Fin 8) ℝ) 0 (update_mat (K := ℝ)) 0 *
              Matrix.fromBlocks P 0 0 (0 : Matrix (Fin 4) (Fin 4) ℝ) *
              (Matrix.fromBlocks (1 : Matrix (Fin 8) (Fin 8) ℝ) 0
                (update_mat (K := ℝ)) 0)ᴴ +
            Matrix.fromBlocks 0 0 0 (Matrix.diagonal fun i =>
              (![std_weight_position * mean 3, std_weight_position * mean 3,
                 1 / 10, std_weight_position * mean 3] : Fin 4 → ℝ) i ^ 2) := by
        rw [project_cov_eq]
        rw [Matrix.fromBlocks_conjTranspose]
        rw [Matrix.fromBlocks_multiply, Matrix.fromBlocks_multiply,
          Matrix.fromBlocks_add]
        simp [Matrix.conjTranspose_eq_transpose_of_trivial]
      rw [hL]
      exact ((posSemidef_fromBlocks_diag hP Matrix.PosSemidef.zero
        ).mul_mul_conjTranspose_same _).add
        (posSemidef_fromBlocks_diag Matrix.PosSemidef.zero (psd_project_R mean))
    rw [← hBH] at hblocks
    have hres := (Matrix.PosSemidef.fromBlocks₂₂ _ _ hSpd).mp hblocks
    rw [hBH] at hres
    have hG : (matInv (project mean P).2 * (P * (update_mat (K := ℝ))ᵀ)ᵀ)ᵀ =
        P * (update_mat (K := ℝ))ᵀ * (project mean P).2⁻¹ := by
      rw [matInv_eq_inv, Matrix.transpose_mul, Matrix.transpose_transpose,
        Matrix.transpose_nonsing_inv, hSt]
    have hGT : (P * (update_mat (K := ℝ))ᵀ * (project mean P).2⁻¹)ᵀ =
        (project mean P).2⁻¹ * ((update_mat (K := ℝ)) * P) := by
      rw [Matrix.transpose_mul, Matrix.transpose_nonsing_inv, hSt,
        Matrix.transpose_mul, Matrix.transpose_transpose, hPt]
    rw [hupd, hG, hGT]
    have hcancel : P * (update_mat (K := ℝ))ᵀ * (project mean P).2⁻¹ *
        (project mean P).2 * ((project mean P).2⁻¹ * ((update_mat (K := ℝ)) * P)) =
        P * (update_mat (K := ℝ))ᵀ * (project mean P).2⁻¹ * ((update_mat (K := ℝ)) * P) := by
      rw [Matrix.mul_assoc (P * update_matᵀ) (project mean P).2⁻¹,
        Matrix.inv_mul_of_invertible, Matrix.mul_one]
      simp only [Matrix.mul_assoc]
    rw [hcancel]
    exact hres

/-- The initial covariance is positive semidefinite. -/
theorem initiate_cov_psd (m : Fin 4 → ℝ) : (initiate m).2.PosSemidef :=
  posSemidef_diagonal_sq _

/-- The predicted covariance of a positive semidefinite state covariance is
positive semidefinite. -/
theorem predict_cov_psd (mean : Fin 8 → ℝ) {P : Matrix (Fin 8) (Fin 8) ℝ}
    (hP : P.PosSemidef) : (predict mean P).2.PosSemidef :=
  (psd_mul_mul_transpose hP motion_mat).add (posSemidef_diagonal_sq _)

/-- Batched prediction preserves positive semidefiniteness track by track. -/
theorem multi_predict_cov_psd {N : ℕ} (means : Fin N → Fin 8 → ℝ)
    (covs : Fin N → Matrix (Fin 8) (Fin 8) ℝ) (k : Fin N)
    (h : (covs k).PosSemidef) :
    ((multi_predict means covs).2 k).PosSemidef := by
  rw [(multi_predict_eq_predict means covs k).2]
  exact predict_cov_psd _ h

/-- Entry `i` of `update_matᵀ *ᵥ x`, seen inside `Fin 8`. -/
theorem update_mat_transpose_mulVec (x : Fin 4 → ℝ) (i : Fin 4) :
    ((update_mat (K := ℝ))ᵀ *ᵥ x)
      ⟨(i : ℕ), i.isLt.trans_le (by norm_num)⟩ = x i := by
  simp only [Matrix.mulVec, Matrix.dotProduct, Matrix.transpose_apply]
  rw [Finset.sum_eq_single i]
  · simp [update_mat]
  · intro b _ hb
    have hbv : ¬(((⟨(i : ℕ), i.isLt.trans_le (by norm_num)⟩ : Fin 8) : ℕ) =
        (b : ℕ)) := fun h => hb (Fin.ext h.symm)
    simp [update_mat, hbv]
  · exact fun h => absurd (Finset.mem_univ _) h

/-- The observed (top-left) block `H P Hᵀ` of a positive definite state
covariance is positive definite. -/
theorem posDef_HPHT {P : Matrix (Fin 8) (Fin 8) ℝ} (hP : P.PosDef) :
    ((update_mat (K := ℝ)) * P * update_matᵀ).PosDef := by
  have hPt : Pᵀ = P := psd_transpose_eq hP.posSemidef
  constructor
  · show ((update_mat (K := ℝ)) * P * update_matᵀ)ᴴ = _
    rw [Matrix.conjTranspose_eq_transpose_of_trivial, Matrix.transpose_mul,
      Matrix.transpose_mul, Matrix.transpose_transpose, hPt]
    simp only [Matrix.mul_assoc]
  · intro x hx
    have hform : star x ⬝ᵥ (((update_mat (K := ℝ)) * P * update_matᵀ) *ᵥ x) =
        star ((update_mat (K := ℝ))ᵀ *ᵥ x) ⬝ᵥ
          (P *ᵥ ((update_mat (K := ℝ))ᵀ *ᵥ x)) := by
      rw [star_trivial, star_trivial, ← Matrix.mulVec_mulVec,
        ← Matrix.mulVec_mulVec, Matrix.dotProduct_mulVec,
        ← Matrix.mulVec_transpose]
    rw [hform]
    refine hP.2 _ ?_
    intro hzero
    apply hx
    funext i
    have h1 := congrFun hzero ⟨(i : ℕ), i.isLt.trans_le (by norm_num)⟩
    rw [update_mat_transpose_mulVec] at h1
    simpa using h1

/-- The projected covariance of a positive definite state covariance is
positive definite. -/
theorem project_cov_posDef (mean : Fin 8 → ℝ) {P : Matrix (Fin 8) (Fin 8) ℝ}
    (hP : P.PosDef) : (project mean P).2.PosDef := by
  rw [project_cov_eq]
  exact (posDef_HPHT hP).add_posSemidef (psd_project_R mean)

end KalmanFilterXYAH

/-- C1: for every batch of K states, `multi_predict` on the stacked batch
produces, for every index k, exactly the same predicted mean and covariance
as `predict` on the k-th (mean, covariance) pair alone (exact equality, so
in particular within any floating tolerance). -/
theorem C1_multi_predict_refines_predict {N : ℕ} (mean : Fin N → Fin 8 → ℚ)
    (covariance : Fin N → Matrix (Fin 8) (Fin 8) ℚ) (k : Fin N) :
    (KalmanFilterXYAH.multi_predict mean covariance).1 k =
      (KalmanFilterXYAH.predict (mean k) (covariance k)).1 ∧
    (KalmanFilterXYAH.multi_predict mean covariance).2 k =
      (KalmanFilterXYAH.predict (mean k) (covariance k)).2 :=
  KalmanFilterXYAH.multi_predict_eq_predict mean covariance k

/-- C5: for every measurement with positive size terms, `initiate` (both
variants) returns a mean whose first four components are the measurement and
whose velocity components are zero, and a diagonal covariance with strictly
positive diagonal. -/
theorem C5_initiate_shape (m : Fin 4 → ℚ) (h2 : 0 < m 2) (h3 : 0 < m 3) :
    ((∀ i : Fin 4,
        (KalmanFilterXYAH.initiate m).1 (Fin.castLE (by norm_num) i) = m i) ∧
      (∀ i : Fin 4, (KalmanFilterXYAH.initiate m).1 ⟨(i : ℕ) + 4, by omega⟩ = 0) ∧
      (∀ i j : Fin 8, i ≠ j → (KalmanFilterXYAH.initiate m).2 i j = 0) ∧
      (∀ i : Fin 8, 0 < (KalmanFilterXYAH.initiate m).2 i i)) ∧
    ((∀ i : Fin 4,
        (KalmanFilterXYWH.initiate m).1 (Fin.castLE (by norm_num) i) = m i) ∧
      (∀ i : Fin 4, (KalmanFilterXYWH.initiate m).1 ⟨(i : ℕ) + 4, by omega⟩ = 0) ∧
      (∀ i j : Fin 8, i ≠ j → (KalmanFilterXYWH.initiate m).2 i j = 0) ∧
      (∀ i : Fin 8, 0 < (KalmanFilterXYWH.initiate m).2 i i)) := by
  have k2 : (0 : ℚ) < 1 / 100 := by norm_num
  have k4 : (0 : ℚ) < 1 / 100000 := by norm_num
  have kp3 : (0 : ℚ) < 2 * KalmanFilterXYAH.std_weight_position * m 3 := by
    simp only [KalmanFilterXYAH.std_weight_position]; positivity
  have kv3 : (0 : ℚ) < 10 * KalmanFilterXYAH.std_weight_velocity * m 3 := by
    simp only [KalmanFilterXYAH.std_weight_velocity]; positivity
  have kp2 : (0 : ℚ) < 2 * KalmanFilterXYAH.std_weight_position * m 2 := by
    simp only [KalmanFilterXYAH.std_weight_position]; positivity
  have kv2 : (0 : ℚ) < 10 * KalmanFilterXYAH.std_weight_velocity * m 2 := by
    simp only [KalmanFilterXYAH.std_weight_velocity]; positivity
  refine ⟨⟨fun i => ?_, fun i => ?_, fun i j hij => ?_, fun i => ?_⟩,
    ⟨fun i => ?_, fun i => ?_, fun i j hij => ?_, fun i => ?_⟩⟩
  · fin_cases i <;> rfl
  · fin_cases i <;> rfl
  · exact Matrix.diagonal_apply_ne _ hij
  · fin_cases i
    · exact pow_pos kp3 2
    · exact pow_pos kp3 2
    · exact pow_pos k2 2
    · exact pow_pos kp3 2
    · exact pow_pos kv3 2
    · exact pow_pos kv3 2
    · exact pow_pos k4 2
    · exact pow_pos kv3 2
  · fin_cases i <;> rfl
  · fin_cases i <;> rfl
  · exact Matrix.diagonal_apply_ne _ hij
  · fin_cases i
    · exact pow_pos kp2 2
    · exact pow_pos kp3 2
    · exact pow_pos kp2 2
    · exact pow_pos kp3 2
    · exact pow_pos kv2 2
    · exact pow_pos kv3 2
    · exact pow_pos kv2 2
    · exact pow_pos kv3 2

theorem C5_initiate_shape_witness :
    ((∀ i : Fin 4, (KalmanFilterXYAH.initiate
        (![3, 4, 1, 2] : Fin 4 → ℚ)).1 (Fin.castLE (by norm_num) i) =
          (![3, 4, 1, 2] : Fin 4 → ℚ) i) ∧
      (∀ i : Fin 4,
        (KalmanFilterXYAH.initiate (![3, 4, 1, 2] : Fin 4 → ℚ)).1
          ⟨(i : ℕ) + 4, by omega⟩ = 0) ∧
      (∀ i j : Fin 8, i ≠ j →
        (KalmanFilterXYAH.initiate (![3, 4, 1, 2] : Fin 4 → ℚ)).2 i j = 0) ∧
      (∀ i : Fin 8,
        0 < (KalmanFilterXYAH.initiate (![3, 4, 1, 2] : Fin 4 → ℚ)).2 i i)) ∧
    ((∀ i : Fin 4, (KalmanFilterXYWH.initiate
        (![3, 4, 1, 2] : Fin 4 → ℚ)).1 (Fin.castLE (by norm_num) i) =
          (![3, 4, 1, 2] : Fin 4 → ℚ) i) ∧
      (∀ i : Fin 4,
        (KalmanFilterXYWH.initiate (![3, 4, 1, 2] : Fin 4 → ℚ)).1
          ⟨(i : ℕ) + 4, by omega⟩ = 0) ∧
      (∀ i j : Fin 8, i ≠ j →
        (KalmanFilterXYWH.initiate (![3, 4, 1, 2] : Fin 4 → ℚ)).2 i j = 0) ∧
      (∀ i : Fin 8,
        0 < (KalmanFilterXYWH.initiate (![3, 4, 1, 2] : Fin 4 → ℚ)).2 i i)) :=
  C5_initiate_shape ![3, 4, 1, 2] (by norm_num) (by norm_num)

/-- C6 counterexample: the measurement `[10, 10, 1, 0]` violates the
precondition (its size term is 0, not positive), yet `initiate` does not
fail — the source contains no validation and no raise path for a
4-component measurement — and silently returns a singular covariance
(determinant 0). -/
theorem C6_initiate_accepts_degenerate :
    ¬ (0 : ℚ) < (![10, 10, 1, 0] : Fin 4 → ℚ) 3 ∧
    (KalmanFilterXYAH.initiate (![10, 10, 1, 0] : Fin 4 → ℚ)).2.det = 0 := by
  constructor
  · norm_num
  · refine Matrix.det_eq_zero_of_row_eq_zero 0 fun j => ?_
    by_cases hj : (0 : Fin 8) = j
    · rw [← hj]
      show (2 * KalmanFilterXYAH.std_weight_position *
        (![10, 10, 1, 0] : Fin 4 → ℚ) 3) ^ 2 = 0
      norm_num
    · exact Matrix.diagonal_apply_ne _ hj

/-- C6 amended: `initiate` performs no input validation; called with a
4-component measurement whose height term is 0 (violating the stated
precondition) it returns normally, and the returned covariance is singular
(determinant 0). -/
theorem C6_initiate_singular_of_zero_height (m : Fin 4 → ℚ) (h : m 3 = 0) :
    (KalmanFilterXYAH.initiate m).2.det = 0 := by
  refine Matrix.det_eq_zero_of_row_eq_zero 0 fun j => ?_
  by_cases hj : (0 : Fin 8) = j
  · rw [← hj]
    show (2 * KalmanFilterXYAH.std_weight_position * m 3) ^ 2 = 0
    rw [h]; ring
  · exact Matrix.diagonal_apply_ne _ hj

theorem C6_initiate_singular_of_zero_height_witness :
    (KalmanFilterXYAH.initiate (![10, 10, 1, 0] : Fin 4 → ℚ)).2.det = 0 :=
  C6_initiate_singular_of_zero_height ![10, 10, 1, 0] (by norm_num)

/-- C7: `gating_distance` with any metric string other than `"gaussian"`
and `"maha"` returns the `ValueError` and never a distance array; there is
no fallback metric. -/
theorem C7_gating_distance_unknown_metric (mean : Fin 8 → ℚ)
    (covariance : Matrix (Fin 8) (Fin 8) ℚ) (measurements : List (Fin 4 → ℚ))
    (only_position : Bool) (metric : String)
    (h1 : metric ≠ "gaussian") (h2 : metric ≠ "maha") :
    KalmanFilterXYAH.gating_distance mean covariance measurements
      only_position metric = Except.error "Invalid distance metric" := by
  unfold KalmanFilterXYAH.gating_distance KalmanFilterXYAH.gating_core
  cases only_position <;> simp [h1, h2]

theorem C7_gating_distance_unknown_metric_witness :
    KalmanFilterXYAH.gating_distance (fun _ => (0 : ℚ)) 1 [] false "cosine" =
      Except.error "Invalid distance metric" :=
  C7_gating_distance_unknown_metric _ _ _ _ _ (by decide) (by decide)

/-- C8: `fuse_score` computes `1 - (1 - cost[i,j]) * score[j]` entrywise,
returns the input unchanged on a zero-size cost matrix, and fuses cost `1/5`
with score `1/2` to `3/5`. -/
theorem C8_fuse_score_formula :
    (∀ (n m : ℕ) (cost : Matrix (Fin n) (Fin m) ℚ)
        (dets : Fin m → Matching.Detection ℚ) (i : Fin n) (j : Fin m),
      Matching.fuse_score cost dets i j = 1 - (1 - cost i j) * (dets j).score) ∧
    (∀ (n m : ℕ), n * m = 0 → ∀ (cost : Matrix (Fin n) (Fin m) ℚ)
        (dets : Fin m → Matching.Detection ℚ),
      Matching.fuse_score cost dets = cost) ∧
    Matching.fuse_score (Matrix.of fun (_ : Fin 1) (_ : Fin 1) => (1 / 5 : ℚ))
      (fun _ => ⟨1 / 2⟩) 0 0 = 3 / 5 := by
  refine ⟨fun n m cost dets i j => ?_, fun n m h cost dets => ?_, ?_⟩
  · by_cases h : n * m = 0
    · rcases Nat.mul_eq_zero.mp h with h0 | h0
      · exact absurd i.isLt (by omega)
      · exact absurd j.isLt (by omega)
    · simp [Matching.fuse_score, h]
  · simp [Matching.fuse_score, h]
  · norm_num [Matching.fuse_score]

/-- C4: variant A end-to-end scenario — `initiate([10, 10, 1, 20])`, one
`predict`, then `update` with measurement `[11, 10, 1, 20]`: the corrected
center-x lies strictly between 10 and 11 (its exact value is `1315/121`). -/
theorem C4_end_to_end_center_x :
    10 < (KalmanFilterXYAH.update
        (KalmanFilterXYAH.predict
          (KalmanFilterXYAH.initiate (![10, 10, 1, 20] : Fin 4 → ℚ)).1
          (KalmanFilterXYAH.initiate (![10, 10, 1, 20] : Fin 4 → ℚ)).2).1
        (KalmanFilterXYAH.predict
          (KalmanFilterXYAH.initiate (![10, 10, 1, 20] : Fin 4 → ℚ)).1
          (KalmanFilterXYAH.initiate (![10, 10, 1, 20] : Fin 4 → ℚ)).2).2
        ![11, 10, 1, 20]).1 0 ∧
    (KalmanFilterXYAH.update
        (KalmanFilterXYAH.predict
          (KalmanFilterXYAH.initiate (![10, 10, 1, 20] : Fin 4 → ℚ)).1
          (KalmanFilterXYAH.initiate (![10, 10, 1, 20] : Fin 4 → ℚ)).2).1
        (KalmanFilterXYAH.predict
          (KalmanFilterXYAH.initiate (![10, 10, 1, 20] : Fin 4 → ℚ)).1
          (KalmanFilterXYAH.initiate (![10, 10, 1, 20] : Fin 4 → ℚ)).2).2
        ![11, 10, 1, 20]).1 0 < 11 := by
  have hmean0 : (KalmanFilterXYAH.initiate (![10, 10, 1, 20] : Fin 4 → ℚ)).1 =
      ![10, 10, 1, 20, 0, 0, 0, 0] := rfl
  have hcov0 : (KalmanFilterXYAH.initiate (![10, 10, 1, 20] : Fin 4 → ℚ)).2 =
      Matrix.diagonal
        ![4, 4, 1/10000, 4, 25/16, 25/16, 1/10000000000, 25/16] := by
    show Matrix.diagonal _ = _
    rw [Matrix.diagonal_eq_diagonal_iff]
    intro i
    fin_cases i <;>
      norm_num [KalmanFilterXYAH.std_weight_position,
        KalmanFilterXYAH.std_weight_velocity]
  have hmean1 : (KalmanFilterXYAH.predict
      (![10, 10, 1, 20, 0, 0, 0, 0] : Fin 8 → ℚ)
      (Matrix.diagonal
        ![4, 4, 1/10000, 4, 25/16, 25/16, 1/10000000000, 25/16])).1 =
      ![10, 10, 1, 20, 0, 0, 0, 0] := by
    funext i
    fin_cases i <;>
      norm_num [KalmanFilterXYAH.predict, Matrix.vecMul, Matrix.dotProduct,
        Fin.sum_univ_succ, KalmanFilterXYAH.motion_mat,
        Matrix.transpose_apply]
  have hcov1 : (KalmanFilterXYAH.predict
      (![10, 10, 1, 20, 0, 0, 0, 0] : Fin 8 → ℚ)
      (Matrix.diagonal
        ![4, 4, 1/10000, 4, 25/16, 25/16, 1/10000000000, 25/16])).2 =
      !![105/16, 0, 0, 0, 25/16, 0, 0, 0;
         0, 105/16, 0, 0, 0, 25/16, 0, 0;
         0, 0, 2000001/10000000000, 0, 0, 0, 1/10000000000, 0;
         0, 0, 0, 105/16, 0, 0, 0, 25/16;
         25/16, 0, 0, 0, 101/64, 0, 0, 0;
         0, 25/16, 0, 0, 0, 101/64, 0, 0;
         0, 0, 1/10000000000, 0, 0, 0, 1/5000000000, 0;
         0, 0, 0, 25/16, 0, 0, 0, 101/64] := by
    ext i j
    fin_cases i <;> fin_cases j <;>
      norm_num [KalmanFilterXYAH.predict, KalmanFilterXYAH.motion_cov,
        Matrix.mul_apply, Fin.sum_univ_succ, KalmanFilterXYAH.motion_mat,
        Matrix.transpose_apply, Matrix.diagonal_apply, Fin.ext_iff,
        KalmanFilterXYAH.std_weight_position,
        KalmanFilterXYAH.std_weight_velocity]
  have hpm : (KalmanFilterXYAH.project
      (![10, 10, 1, 20, 0, 0, 0, 0] : Fin 8 → ℚ)
      !![105/16, 0, 0, 0, 25/16, 0, 0, 0;
         0, 105/16, 0, 0, 0, 25/16, 0, 0;
         0, 0, 2000001/10000000000, 0, 0, 0, 1/10000000000, 0;
         0, 0, 0, 105/16, 0, 0, 0, 25/16;
         25/16, 0, 0, 0, 101/64, 0, 0, 0;
         0, 25/16, 0, 0, 0, 101/64, 0, 0;
         0, 0, 1/10000000000, 0, 0, 0, 1/5000000000, 0;
         0, 0, 0, 25/16, 0, 0, 0, 101/64]).1 = ![10, 10, 1, 20] := by
    funext i
    rw [KalmanFilterXYAH.project_mean_apply]
    fin_cases i <;> rfl
  have hS : (KalmanFilterXYAH.project
      (![10, 10, 1, 20, 0, 0, 0, 0] : Fin 8 → ℚ)
      !![105/16, 0, 0, 0, 25/16, 0, 0, 0;
         0, 105/16, 0, 0, 0, 25/16, 0, 0;
         0, 0, 2000001/10000000000, 0, 0, 0, 1/10000000000, 0;
         0, 0, 0, 105/16, 0, 0, 0, 25/16;
         25/16, 0, 0, 0, 101/64, 0, 0, 0;
         0, 25/16, 0, 0, 0, 101/64, 0, 0;
         0, 0, 1/10000000000, 0, 0, 0, 1/5000000000, 0;
         0, 0, 0, 25/16, 0, 0, 0, 101/64]).2 =
      Matrix.diagonal ![121/16, 121/16, 102000001/10000000000, 121/16] := by
    rw [KalmanFilterXYAH.project_cov_eq]
    ext i j
    rw [Matrix.add_apply, KalmanFilterXYAH.mul_update_mat_transpose_apply,
      KalmanFilterXYAH.update_mat_mul_apply]
    fin_cases i <;> fin_cases j <;>
      norm_num [Matrix.diagonal_apply, Fin.ext_iff,
        KalmanFilterXYAH.std_weight_position]
  have hInv : matInv
      (Matrix.diagonal (![121/16, 121/16, 102000001/10000000000, 121/16] :
        Fin 4 → ℚ)) =
      Matrix.diagonal ![16/121, 16/121, 10000000000/102000001, 16/121] := by
    refine matInv_eq_of_mul_eq_one ?_
    rw [Matrix.diagonal_mul_diagonal, ← Matrix.diagonal_one,
      Matrix.diagonal_eq_diagonal_iff]
    intro i
    fin_cases i <;> norm_num
  rw [hmean0, hcov0, hmean1, hcov1]
  simp only [KalmanFilterXYAH.update]
  rw [hpm, hS, hInv]
  constructor <;>
    norm_num [Matrix.vecMul, Matrix.dotProduct, Matrix.mul_apply,
      Fin.sum_univ_succ, Matrix.transpose_apply, Matrix.diagonal_apply,
      Fin.ext_iff, KalmanFilterXYAH.update_mat, Matrix.of_apply,
      Fin.val_succ]

theorem C8_fuse_score_formula_witness :
    Matching.fuse_score (0 : Matrix (Fin 0) (Fin 5) ℚ)
      (fun _ => ⟨1 / 2⟩) = 0 :=
  C8_fuse_score_formula.2.1 0 5 (by norm_num) 0 (fun _ => ⟨1 / 2⟩)

/-- C9: for single-element lists of raw axis-aligned boxes `[x1, y1, x2, y2]`,
`iou_distance` returns `1 − IoU`: two identical boxes (with positive extent)
cost 0, and two boxes with zero intersection area cost 1. -/
theorem C9_iou_distance_extremes :
    (∀ x1 y1 x2 y2 : ℚ, x1 < x2 → y1 < y2 →
      Matching.iou_distance [Sum.inl [x1, y1, x2, y2]]
        [Sum.inl [x1, y1, x2, y2]] 0 0 = 0) ∧
    (∀ b1 b2 : List ℚ, b1.length = 4 → b2.length = 4 →
      Matching.interArea b1 b2 = 0 →
      Matching.iou_distance [Sum.inl b1] [Sum.inl b2] 0 0 = 1) := by
  constructor
  · intro x1 y1 x2 y2 hx hy
    have harea : (0 : ℚ) < (x2 - x1) * (y2 - y1) :=
      mul_pos (by linarith) (by linarith)
    simp only [Matching.iou_distance, Matching.selectedReps,
      Matching.firstIsRaw, Matching.entryArr, Bool.true_or, if_true,
      List.map_cons, List.map_nil, List.length_cons, List.length_nil,
      List.headD_cons, List.getD_cons_zero]
    norm_num [Matching.bbox_ioa, Matching.interArea, Matching.boxArea,
      Matching.boxX1, Matching.boxY1, Matching.boxX2, Matching.boxY2,
      min_self, max_self]
    rw [max_eq_right (by linarith : (0:ℚ) ≤ x2 - x1),
      max_eq_right (by linarith : (0:ℚ) ≤ y2 - y1)]
    rw [show (x2 - x1) * (y2 - y1) + (x2 - x1) * (y2 - y1) -
        (x2 - x1) * (y2 - y1) = (x2 - x1) * (y2 - y1) by ring]
    rw [div_self harea.ne']
    ring
  · intro b1 b2 h1 h2 hinter
    simp only [Matching.iou_distance, Matching.selectedReps,
      Matching.firstIsRaw, Matching.entryArr, Bool.true_or, if_true,
      List.map_cons, List.map_nil, List.length_cons, List.length_nil,
      List.headD_cons, List.getD_cons_zero]
    norm_num [h1, Matching.bbox_ioa, hinter]

theorem C9_iou_distance_extremes_witness :
    Matching.iou_distance [Sum.inl [(0 : ℚ), 0, 2, 2]]
      [Sum.inl [(0 : ℚ), 0, 2, 2]] 0 0 = 0 ∧
    Matching.iou_distance [Sum.inl [(0 : ℚ), 0, 1, 1]]
      [Sum.inl [(5 : ℚ), 5, 6, 6]] 0 0 = 1 :=
  ⟨C9_iou_distance_extremes.1 0 0 2 2 (by norm_num) (by norm_num),
   C9_iou_distance_extremes.2 [0, 0, 1, 1] [5, 5, 6, 6] rfl rfl (by
     norm_num [Matching.interArea, Matching.boxX1, Matching.boxY1,
       Matching.boxX2, Matching.boxY2])⟩

/-- C10: the representation policy of `iou_distance`: a raw first element in
either list passes both lists through unchanged; otherwise each track is
converted to `xywha` exactly when its `angle` is not `None` and to `xyxy`
otherwise; and whenever the two selected lead boxes do not both have length
5 (the rotated form), the axis-aligned `bbox_ioa` pairing is used. -/
theorem C10_iou_distance_representation_policy :
    (∀ a b : List (Matching.Entry ℚ),
      (Matching.firstIsRaw a || Matching.firstIsRaw b) = true →
      Matching.selectedReps a b = (a, b)) ∧
    (∀ a b : List (Matching.Entry ℚ),
      (Matching.firstIsRaw a || Matching.firstIsRaw b) = false →
      Matching.selectedReps a b =
        (a.map fun e => Sum.inl (Matching.entryConv e),
         b.map fun e => Sum.inl (Matching.entryConv e))) ∧
    (∀ t : Matching.Track ℚ,
      (t.angle.isSome → Matching.entryConv (Sum.inr t) = List.ofFn t.xywha) ∧
      (t.angle = none → Matching.entryConv (Sum.inr t) = List.ofFn t.xyxy)) ∧
    (∀ (a b : List (Matching.Entry ℚ)) (i j : ℕ),
      ¬((((Matching.selectedReps a b).1.map Matching.entryArr).headD
            []).length = 5 ∧
        (((Matching.selectedReps a b).2.map Matching.entryArr).headD
            []).length = 5) →
      Matching.iou_distance a b i j =
        1 - (if ((Matching.selectedReps a b).1.map
                  Matching.entryArr).length ≠ 0 ∧
               ((Matching.selectedReps a b).2.map
                  Matching.entryArr).length ≠ 0 then
              Matching.bbox_ioa
                (((Matching.selectedReps a b).1.map Matching.entryArr).getD i [])
                (((Matching.selectedReps a b).2.map Matching.entryArr).getD j [])
             else 0)) := by
  refine ⟨fun a b h => ?_, fun a b h => ?_, fun t => ⟨fun h => ?_, fun h => ?_⟩,
    fun a b i j h => ?_⟩
  · rw [Matching.selectedReps, if_pos h]
  · rw [Matching.selectedReps, if_neg (by simp_all)]
  · rw [Matching.entryConv, Matching.trackBox, if_pos h]
  · rw [Matching.entryConv, Matching.trackBox, if_neg (by simp [h])]
  · simp only [Matching.iou_distance]
    split_ifs with h1 <;> simp_all

theorem C10_iou_distance_representation_policy_witness :
    Matching.selectedReps [Sum.inl ([0, 0, 1, 1] : List ℚ)]
      ([] : List (Matching.Entry ℚ)) = ([Sum.inl [0, 0, 1, 1]], []) :=
  C10_iou_distance_representation_policy.1 [Sum.inl [0, 0, 1, 1]] [] rfl

/-- C2: every State Estimator operation that returns a covariance —
`initiate`, `predict`, `multi_predict`, `project`, `update` — returns a
symmetric positive-semidefinite matrix whenever its input covariance is
symmetric positive-semidefinite (in exact arithmetic; symmetry is part of
`Matrix.PosSemidef` via its Hermitian component). -/
theorem C2_state_estimator_preserves_psd
    (meas : Fin 4 → ℝ) (mean : Fin 8 → ℝ) {P : Matrix (Fin 8) (Fin 8) ℝ}
    (z : Fin 4 → ℝ) {N : ℕ} (means : Fin N → Fin 8 → ℝ)
    (covs : Fin N → Matrix (Fin 8) (Fin 8) ℝ) (k : Fin N)
    (hP : P.PosSemidef) (hcovs : (covs k).PosSemidef) :
    (KalmanFilterXYAH.initiate meas).2.PosSemidef ∧
    (KalmanFilterXYAH.predict mean P).2.PosSemidef ∧
    ((KalmanFilterXYAH.multi_predict means covs).2 k).PosSemidef ∧
    (KalmanFilterXYAH.project mean P).2.PosSemidef ∧
    (KalmanFilterXYAH.update mean P z).2.PosSemidef :=
  ⟨KalmanFilterXYAH.initiate_cov_psd meas,
   KalmanFilterXYAH.predict_cov_psd mean hP,
   KalmanFilterXYAH.multi_predict_cov_psd means covs k hcovs,
   KalmanFilterXYAH.project_cov_psd mean hP,
   KalmanFilterXYAH.update_cov_psd mean hP z⟩

theorem C2_state_estimator_preserves_psd_witness :
    (KalmanFilterXYAH.initiate (fun _ => (1 : ℝ))).2.PosSemidef ∧
    (KalmanFilterXYAH.predict (fun _ => (0 : ℝ)) 1).2.PosSemidef ∧
    ((KalmanFilterXYAH.multi_predict (fun _ : Fin 1 => fun _ => (0 : ℝ))
      (fun _ => 1)).2 0).PosSemidef ∧
    (KalmanFilterXYAH.project (fun _ => (0 : ℝ)) 1).2.PosSemidef ∧
    (KalmanFilterXYAH.update (fun _ => (0 : ℝ)) 1 (fun _ => 0)).2.PosSemidef :=
  C2_state_estimator_preserves_psd (fun _ => 1) (fun _ => 0) (fun _ => 0)
    (fun _ : Fin 1 => fun _ => 0) (fun _ => 1) 0
    Matrix.PosSemidef.one Matrix.PosSemidef.one

/-- C3: calling `update` with a measurement equal to the projected mean
leaves the mean unchanged (zero innovation) and strictly shrinks a positive
definite covariance: the difference `covariance − new_covariance` is
positive semidefinite and nonzero. -/
theorem C3_update_zero_innovation (mean : Fin 8 → ℝ)
    {P : Matrix (Fin 8) (Fin 8) ℝ} (hP : P.PosDef) :
    (KalmanFilterXYAH.update mean P (KalmanFilterXYAH.project mean P).1).1 =
      mean ∧
    (P - (KalmanFilterXYAH.update mean P
      (KalmanFilterXYAH.project mean P).1).2).PosSemidef ∧
    P - (KalmanFilterXYAH.update mean P
      (KalmanFilterXYAH.project mean P).1).2 ≠ 0 := by
  open KalmanFilterXYAH in
  have hSpd := project_cov_posDef mean hP
  have hSpsd := hSpd.posSemidef
  have hSt := psd_transpose_eq hSpsd
  have hPt := psd_transpose_eq hP.posSemidef
  have hmean : (update mean P (project mean P).1).1 = mean := by
    funext i
    show mean i + Matrix.vecMul
      (fun j => (project mean P).1 j - (project mean P).1 j) _ i = mean i
    have h0 : (fun j => (project mean P).1 j - (project mean P).1 j) =
        (0 : Fin 4 → ℝ) := by funext j; simp
    rw [h0, Matrix.zero_vecMul]
    simp
  have hdiff : P - (update mean P (project mean P).1).2 =
      ((matInv (project mean P).2 * (P * (update_mat (K := ℝ))ᵀ)ᵀ)ᵀ :
        Matrix (Fin 8) (Fin 4) ℝ) * (project mean P).2 *
      ((matInv (project mean P).2 * (P * (update_mat (K := ℝ))ᵀ)ᵀ)ᵀ :
        Matrix (Fin 8) (Fin 4) ℝ)ᵀ := by
    show P - (P - _) = _
    rw [sub_sub_cancel]
  refine ⟨hmean, ?_, ?_⟩
  · rw [hdiff]
    exact psd_mul_mul_transpose hSpsd _
  · have hdet : (project mean P).2.det ≠ 0 := hSpd.det_pos.ne'
    have hU : IsUnit (project mean P).2.det := isUnit_iff_ne_zero.mpr hdet
    haveI : Invertible (project mean P).2 :=
      (project mean P).2.invertibleOfIsUnitDet hU
    have hG : (matInv (project mean P).2 * (P * (update_mat (K := ℝ))ᵀ)ᵀ)ᵀ =
        P * (update_mat (K := ℝ))ᵀ * (project mean P).2⁻¹ := by
      rw [matInv_eq_inv, Matrix.transpose_mul, Matrix.transpose_transpose,
        Matrix.transpose_nonsing_inv, hSt]
    have hGT : (P * (update_mat (K := ℝ))ᵀ * (project mean P).2⁻¹)ᵀ =
        (project mean P).2⁻¹ * ((update_mat (K := ℝ)) * P) := by
      rw [Matrix.transpose_mul, Matrix.transpose_nonsing_inv, hSt,
        Matrix.transpose_mul, Matrix.transpose_transpose, hPt]
    have hdiff2 : P - (update mean P (project mean P).1).2 =
        P * (update_mat (K := ℝ))ᵀ * (project mean P).2⁻¹ *
          ((update_mat (K := ℝ)) * P) := by
      rw [hdiff, hG, hGT]
      rw [Matrix.mul_assoc (P * (update_mat (K := ℝ))ᵀ) (project mean P).2⁻¹,
        Matrix.inv_mul_of_invertible, Matrix.mul_one]
      simp only [Matrix.mul_assoc]
    have hBpd := posDef_HPHT hP
    have hwne : ((update_mat (K := ℝ)) * P) *ᵥ
        ((update_mat (K := ℝ))ᵀ *ᵥ Pi.single (0 : Fin 4) (1 : ℝ)) ≠ 0 := by
      rw [Matrix.mulVec_mulVec]
      intro h
      have hinj : Function.Injective
          ((update_mat (K := ℝ)) * P * update_matᵀ).mulVec :=
        Matrix.mulVec_injective_iff_isUnit.mpr hBpd.isUnit
      have he0 : Pi.single (0 : Fin 4) (1 : ℝ) = 0 := hinj (by simpa using h)
      have := congrFun he0 0
      simp at this
    have hpos : 0 < star ((update_mat (K := ℝ))ᵀ *ᵥ Pi.single (0 : Fin 4) (1 : ℝ)) ⬝ᵥ
        ((P - (update mean P (project mean P).1).2) *ᵥ
          ((update_mat (K := ℝ))ᵀ *ᵥ Pi.single (0 : Fin 4) (1 : ℝ))) := by
      rw [hdiff2, star_trivial, ← Matrix.mulVec_mulVec, ← Matrix.mulVec_mulVec,
        Matrix.dotProduct_mulVec, ← Matrix.mulVec_transpose,
        Matrix.transpose_mul, Matrix.transpose_transpose, hPt]
      have hSinv : (project mean P).2⁻¹.PosDef := hSpd.inv
      have hform := hSinv.2 _ hwne
      rwa [star_trivial] at hform
    intro h
    rw [h] at hpos
    simp at hpos

theorem C3_update_zero_innovation_witness :
    (KalmanFilterXYAH.update (fun _ => (0 : ℝ)) 1
      (KalmanFilterXYAH.project (fun _ => (0 : ℝ)) 1).1).1 =
      (fun _ => (0 : ℝ)) ∧
    ((1 : Matrix (Fin 8) (Fin 8) ℝ) - (KalmanFilterXYAH.update
      (fun _ => (0 : ℝ)) 1
      (KalmanFilterXYAH.project (fun _ => (0 : ℝ)) 1).1).2).PosSemidef ∧
    (1 : Matrix (Fin 8) (Fin 8) ℝ) - (KalmanFilterXYAH.update
      (fun _ => (0 : ℝ)) 1
      (KalmanFilterXYAH.project (fun _ => (0 : ℝ)) 1).1).2 ≠ 0 :=
  C3_update_zero_innovation (fun _ => 0) Matrix.PosDef.one

end Trackobjs
